import Mathlib

/-!
A shallow embedding of the type-term representation and substitution engine
of crates/hir_ty/src/lib.rs (the `Ty` algebra, `Substs`, `Binders`, and the
`TypeWalk` de Bruijn substitution/shift framework), together with proofs of
the specified properties.

Modelling conventions:
- External interned identifiers (AdtId, TraitId, TypeAliasId, FunctionId,
  DefWithBodyId, ExprId, TypeParamId, LifetimeParamId, CallableDefId,
  InferenceVar) are opaque keys used only for equality; they are modelled
  as `Nat`.
- `DebruijnIndex` is a depth counter (INNERMOST = 0, `shifted_in` = +1,
  `shifted_in_from` adds depths, `>=` compares depths); it is modelled as
  `Nat`.
- `Substs(Arc<[Ty]>)` is an immutable sequence of types; it is modelled as
  `List Ty`.
- `FnPointer { num_args, sig: FnSig { variadic }, substs }` and the payload
  structs `ProjectionTy`, `OpaqueTy`, `TraitRef` are flattened into the
  fields of the constructor that carries them.
- `ProjectionPredicate` lives in the traits module, outside the sources at
  hand; per the specification it carries an associated-type projection
  (alias id plus parameters) and the expected concrete type, and its walk
  visits the projection parameters and the type at unchanged depth.
- Functions that can panic on malformed input (assertion failures,
  out-of-range single-element access) return `Option`, with `none`
  standing for the panic.
-/

set_option autoImplicit false

/-- Mutability of a reference or raw pointer (hir_def type_ref). -/
inductive Mutability where
  | Shared
  | Mut
  deriving DecidableEq

/-- Whether a pointer-like type is a raw pointer or a reference. -/
inductive Rawness where
  | RawPtr
  | Ref
  deriving DecidableEq

/-- Scalar type kinds (chalk_ir), with the width kinds as opaque numbers. -/
inductive Scalar where
  | Bool
  | Char
  | Int (kind : Nat)
  | Uint (kind : Nat)
  | Float (kind : Nat)
  deriving DecidableEq

/-- Kind tag of an inference variable. -/
inductive TyVariableKind where
  | General
  | Integer
  | Float
  deriving DecidableEq

/-- Identifier of an opaque (`impl Trait`) type. -/
inductive OpaqueTyId where
  | ReturnTypeImplTrait (func : Nat) (idx : Nat)
  | AsyncBlockTypeImplTrait (defId : Nat) (expr : Nat)
  deriving DecidableEq

mutual

/-- The `Ty` enum: every kind of type expression. Substs-carrying payload
structs (`FnPointer`, `ProjectionTy`, `OpaqueTy`) are flattened into the
constructor arguments. -/
inductive Ty where
  | Adt (adt : Nat) (substs : List Ty)
  | AssociatedType (typeAlias : Nat) (substs : List Ty)
  | Scalar (scalar : Scalar)
  | Tuple (cardinality : Nat) (substs : List Ty)
  | Array (substs : List Ty)
  | Slice (substs : List Ty)
  | RawPtr (mutability : Mutability) (substs : List Ty)
  | Ref (mutability : Mutability) (substs : List Ty)
  | OpaqueType (opaqueId : OpaqueTyId) (substs : List Ty)
  | FnDef (callable : Nat) (substs : List Ty)
  | Str
  | Never
  | Closure (defId : Nat) (expr : Nat) (substs : List Ty)
  | ForeignType (typeAlias : Nat)
  | Function (numArgs : Nat) (variadic : Bool) (substs : List Ty)
  | Projection (associatedTy : Nat) (parameters : List Ty)
  | Opaque (opaqueId : OpaqueTyId) (parameters : List Ty)
  | Placeholder (param : Nat)
  | Bound (debruijn : Nat) (index : Nat)
  | InferenceVar (var : Nat) (kind : TyVariableKind)
  | Dyn (predicates : List GenericPredicate)
  | Unknown

/-- A resolved condition on the parameters of a generic item.
`Implemented` carries a flattened `TraitRef` (trait id and substs);
`Projection` carries a flattened `ProjectionPredicate` (projection plus
expected type, modelled from the spec since its definition lives in the
traits module). -/
inductive GenericPredicate where
  | Implemented (traitId : Nat) (substs : List Ty)
  | Projection (associatedTy : Nat) (parameters : List Ty) (ty : Ty)
  | Error

end

mutual

/-- Embedding of `walk_mut_binders` for `Ty`, with the in-place mutation by
the closure `f` expressed as a rewriting fold: children are rewritten first
(entering `Dyn` increments the tracked depth), then `f` is applied to the
rebuilt node at the current depth. `fold_binders` is the same traversal, so
this single function embeds both. -/
def Ty.foldBinders (f : Ty → Nat → Ty) : Ty → Nat → Ty
  | .Adt a ss, d => f (.Adt a (foldBindersList f ss d)) d
  | .AssociatedType a ss, d => f (.AssociatedType a (foldBindersList f ss d)) d
  | .Scalar s, d => f (.Scalar s) d
  | .Tuple c ss, d => f (.Tuple c (foldBindersList f ss d)) d
  | .Array ss, d => f (.Array (foldBindersList f ss d)) d
  | .Slice ss, d => f (.Slice (foldBindersList f ss d)) d
  | .RawPtr m ss, d => f (.RawPtr m (foldBindersList f ss d)) d
  | .Ref m ss, d => f (.Ref m (foldBindersList f ss d)) d
  | .OpaqueType o ss, d => f (.OpaqueType o (foldBindersList f ss d)) d
  | .FnDef c ss, d => f (.FnDef c (foldBindersList f ss d)) d
  | .Str, d => f .Str d
  | .Never, d => f .Never d
  | .Closure c e ss, d => f (.Closure c e (foldBindersList f ss d)) d
  | .ForeignType a, d => f (.ForeignType a) d
  | .Function n v ss, d => f (.Function n v (foldBindersList f ss d)) d
  | .Projection a ps, d => f (.Projection a (foldBindersList f ps d)) d
  | .Opaque o ps, d => f (.Opaque o (foldBindersList f ps d)) d
  | .Placeholder p, d => f (.Placeholder p) d
  | .Bound b i, d => f (.Bound b i) d
  | .InferenceVar v k, d => f (.InferenceVar v k) d
  | .Dyn ps, d => f (.Dyn (foldBindersPreds f ps (d + 1))) d
  | .Unknown, d => f .Unknown d

/-- `walk_mut_binders` for `Substs` (and slices of `Ty`): each element is
walked at the same depth. -/
def foldBindersList (f : Ty → Nat → Ty) : List Ty → Nat → List Ty
  | [], _ => []
  | t :: ts, d => t.foldBinders f d :: foldBindersList f ts d

/-- `walk_mut_binders` for `GenericPredicate`: recurses into the contained
trait reference or projection predicate at unchanged depth (the closure is
not applied to the predicate itself, only to the types inside it). -/
def GenericPredicate.foldBinders (f : Ty → Nat → Ty) :
    GenericPredicate → Nat → GenericPredicate
  | .Implemented tr ss, d => .Implemented tr (foldBindersList f ss d)
  | .Projection a ps t, d => .Projection a (foldBindersList f ps d) (t.foldBinders f d)
  | .Error, _ => .Error

/-- `walk_mut_binders` over a list of predicates (the payload of `Dyn`). -/
def foldBindersPreds (f : Ty → Nat → Ty) :
    List GenericPredicate → Nat → List GenericPredicate
  | [], _ => []
  | p :: ps, d => p.foldBinders f d :: foldBindersPreds f ps d

end

/-- The rewriting closure used by `shift_bound_vars`: a bound variable that
is free at the current depth (`debruijn >= binders`) has its depth shifted
in from `n` (depths add); everything else is untouched. -/
def shiftClosure (n : Nat) : Ty → Nat → Ty :=
  fun t binders =>
    match t with
    | .Bound b i => if b ≥ binders then .Bound (b + n) i else .Bound b i
    | t => t

/-- The `TypeWalk` capability: any type-containing structure exposes the
depth-aware mutating traversal (here: rewriting fold) `walk_mut_binders`. -/
class TypeWalk (α : Type) where
  foldBinders : (Ty → Nat → Ty) → α → Nat → α

instance instTypeWalkTy : TypeWalk Ty :=
  ⟨Ty.foldBinders⟩

instance instTypeWalkSubsts : TypeWalk (List Ty) :=
  ⟨foldBindersList⟩

instance instTypeWalkPred : TypeWalk GenericPredicate :=
  ⟨GenericPredicate.foldBinders⟩

/-- `shift_bound_vars(n)`: shifts up the de Bruijn depth of every free
`Ty::Bound` by `n`, starting the traversal at depth `INNERMOST = 0`. -/
def TypeWalk.shiftBoundVars {α : Type} [TypeWalk α] (n : Nat) (x : α) : α :=
  TypeWalk.foldBinders (shiftClosure n) x 0

/-- The rewriting closure used by `subst_bound_vars_at_depth`: a bound
variable that is free at the current depth is replaced by the indexed
element of the substitution, shifted up by the current depth. Out-of-range
indexing panics in the source; the traversal here falls back to
`Ty.Unknown`, and all theorems about substitution keep the index in
range. -/
def substClosure (s : List Ty) : Ty → Nat → Ty :=
  fun t binders =>
    match t with
    | .Bound b i =>
        if b ≥ binders then TypeWalk.shiftBoundVars binders (s.getD i Ty.Unknown)
        else .Bound b i
    | t => t

/-- `subst_bound_vars_at_depth(substs, depth)`: substitutes free `Ty::Bound`
variables with the given substitution, starting the traversal at the given
depth. -/
def TypeWalk.substBoundVarsAtDepth {α : Type} [TypeWalk α]
    (s : List Ty) (x : α) (depth : Nat) : α :=
  TypeWalk.foldBinders (substClosure s) x depth

/-- `subst_bound_vars(substs)`: substitution starting at depth 0. -/
def TypeWalk.substBoundVars {α : Type} [TypeWalk α] (s : List Ty) (x : α) : α :=
  TypeWalk.substBoundVarsAtDepth s x 0

namespace Substs

/-- `Substs::empty`. -/
def empty : List Ty := []

/-- `Substs::single`. -/
def single (ty : Ty) : List Ty := [ty]

/-- `Substs::prefix(n)` (named `prefixN` because the source name is a Lean
keyword): the slice `[..min(len, n)]`. -/
def prefixN (s : List Ty) (n : Nat) : List Ty :=
  s.take (min s.length n)

/-- `Substs::suffix(n)`: the slice `[len - min(len, n)..]`. -/
def suffix (s : List Ty) (n : Nat) : List Ty :=
  s.drop (s.length - min s.length n)

/-- `Substs::as_single`: the unique element of a one-element list; any
other length panics (`none`). -/
def asSingle : List Ty → Option Ty
  | [t] => some t
  | _ => none

/-- `Substs::bound_vars(generic_params, debruijn)`: one `Ty::Bound` at the
given depth per generic parameter, indexed by parameter position. The
generic parameter list only contributes its length here, so it is modelled
by its parameter count. -/
def boundVars (paramCount : Nat) (debruijn : Nat) : List Ty :=
  (List.range paramCount).map (fun idx => Ty.Bound debruijn idx)

end Substs

/-- `SubstsBuilder`: accumulates exactly `paramCount` elements. -/
structure SubstsBuilder where
  vec : List Ty
  paramCount : Nat

/-- `Substs::builder(param_count)`. -/
def Substs.builder (paramCount : Nat) : SubstsBuilder :=
  ⟨[], paramCount⟩

namespace SubstsBuilder

/-- `SubstsBuilder::build`: asserts that the accumulated length equals the
declared arity before freezing (`none` = assertion failure). -/
def build (b : SubstsBuilder) : Option (List Ty) :=
  if b.vec.length = b.paramCount then some b.vec else none

/-- `SubstsBuilder::push`. -/
def push (b : SubstsBuilder) (ty : Ty) : SubstsBuilder :=
  { b with vec := b.vec ++ [ty] }

/-- `SubstsBuilder::remaining` (natural subtraction; the source underflows,
hence panics, when more than `param_count` elements were pushed — all
builder theorems keep `vec.length ≤ paramCount`). -/
def remaining (b : SubstsBuilder) : Nat :=
  b.paramCount - b.vec.length

/-- `SubstsBuilder::fill(filler)`: extends the accumulated vector with the
first `remaining` elements of the filler. Both source call sites pass
infinite iterators, so the filler is modelled as an infinite stream, under
which the trailing `assert_eq!(remaining, 0)` always holds. -/
def fill (b : SubstsBuilder) (filler : Nat → Ty) : SubstsBuilder :=
  { b with vec := b.vec ++ (List.range b.remaining).map filler }

/-- `SubstsBuilder::fill_with_unknown`: fills the remaining slots with
`Ty::Unknown` (`iter::repeat(Ty::Unknown)`). -/
def fillWithUnknown (b : SubstsBuilder) : SubstsBuilder :=
  b.fill (fun _ => Ty.Unknown)

/-- `SubstsBuilder::fill_with_bound_vars(debruijn, starting_from)`: fills
the remaining slots with `Ty::Bound` variables at consecutive indices
(`(starting_from..).map(...)`). -/
def fillWithBoundVars (b : SubstsBuilder) (debruijn : Nat) (startingFrom : Nat) :
    SubstsBuilder :=
  b.fill (fun k => Ty.Bound debruijn (startingFrom + k))

end SubstsBuilder

/-- `Binders<T>`: a value with a count of implicitly bound variables. -/
structure Binders (α : Type) where
  numBinders : Nat
  value : α

/-- The `TypeWalk` impl for `Binders<T>` walks the wrapped value one binder
deeper. -/
instance instTypeWalkBinders {α : Type} [TypeWalk α] : TypeWalk (Binders α) :=
  ⟨fun f b d => { b with value := TypeWalk.foldBinders f b.value (d + 1) }⟩

/-- `Binders::subst`: asserts that the substitution length equals the
binder count (`none` = assertion failure), then substitutes all variables
of the wrapped value starting at depth 0. -/
def Binders.subst {α : Type} [TypeWalk α] (b : Binders α) (s : List Ty) : Option α :=
  if s.length = b.numBinders then some (TypeWalk.substBoundVars s b.value) else none

/-- `CallableSig`: parameter types followed by the return type, with the
variadic flag. -/
structure CallableSig where
  paramsAndReturn : List Ty
  isVarargs : Bool

instance instTypeWalkCallableSig : TypeWalk CallableSig :=
  ⟨fun f sig d => { sig with paramsAndReturn := foldBindersList f sig.paramsAndReturn d }⟩

namespace CallableSig

/-- `CallableSig::from_params_and_return`: appends the return type to the
parameter list. -/
def fromParamsAndReturn (params : List Ty) (ret : Ty) (isVarargs : Bool) : CallableSig :=
  ⟨params ++ [ret], isVarargs⟩

/-- `CallableSig::from_fn_ptr`: reinterprets the substs of a `FnPointer`
(flattened into the `Function` constructor) as a signature. -/
def fromFnPtr (variadic : Bool) (substs : List Ty) : CallableSig :=
  ⟨substs, variadic⟩

/-- `CallableSig::params`: the slice `[0..len - 1]` (the source underflows,
hence panics, on an empty list; constructed forms are never empty). -/
def params (sig : CallableSig) : List Ty :=
  sig.paramsAndReturn.take (sig.paramsAndReturn.length - 1)

/-- `CallableSig::ret`: the element at `len - 1` (`none` when the list is
empty, where the source panics). -/
def ret (sig : CallableSig) : Option Ty :=
  sig.paramsAndReturn.getLast?

end CallableSig

/-- The database boundary used by `callable_sig`: the memoized callable
signature query for a function/constructor definition. -/
structure HirDatabase where
  callableItemSignature : Nat → Binders CallableSig

namespace Ty

/-- `Ty::unit`. -/
def unit : Ty := .Tuple 0 Substs.empty

/-- `Ty::fn_ptr(sig)`: a `Function` whose argument count is the number of
parameters of the signature and whose substs are its full
parameters-and-return list. -/
def fnPtr (sig : CallableSig) : Ty :=
  .Function sig.params.length sig.isVarargs sig.paramsAndReturn

/-- `Ty::as_reference`. The outer `Option` distinguishes a panic inside
`Substs::as_single` (`none`) from a normal return (`some result`). -/
def asReference : Ty → Option (Option (Ty × Mutability))
  | .Ref m parameters =>
      match Substs.asSingle parameters with
      | some t => some (some (t, m))
      | none => none
  | _ => some none

/-- `Ty::as_reference_or_ptr`, with the same panic encoding as
`asReference`. -/
def asReferenceOrPtr : Ty → Option (Option (Ty × Rawness × Mutability))
  | .Ref m parameters =>
      match Substs.asSingle parameters with
      | some t => some (some (t, Rawness.Ref, m))
      | none => none
  | .RawPtr m parameters =>
      match Substs.asSingle parameters with
      | some t => some (some (t, Rawness.RawPtr, m))
      | none => none
  | _ => some none

/-- `Ty::builtin_deref`, with the same panic encoding as `asReference`. -/
def builtinDeref : Ty → Option (Option Ty)
  | .Ref _ parameters =>
      match Substs.asSingle parameters with
      | some t => some (some t)
      | none => none
  | .RawPtr _ parameters =>
      match Substs.asSingle parameters with
      | some t => some (some t)
      | none => none
  | _ => some none

/-- `Ty::strip_references`: iterates through `Ref` layers via
`Substs::as_single`; `none` encodes the panic of `as_single` on a `Ref`
whose substs list is not a singleton. -/
def stripReferences : Ty → Option Ty
  | .Ref _ [t] => stripReferences t
  | .Ref _ [] => none
  | .Ref _ (_ :: _ :: _) => none
  | t => some t

/-- `Ty::equals_ctor`: same type constructor, ignoring substituted
arguments (`==` on the opaque ids is equality, written with `decide`). -/
def equalsCtor : Ty → Ty → Bool
  | .Adt adt _, .Adt adt2 _ => decide (adt = adt2)
  | .Slice _, .Slice _ => true
  | .Array _, .Array _ => true
  | .FnDef defId _, .FnDef defId2 _ => decide (defId = defId2)
  | .OpaqueType tyId _, .OpaqueType tyId2 _ => decide (tyId = tyId2)
  | .AssociatedType tyId _, .AssociatedType tyId2 _ => decide (tyId = tyId2)
  | .ForeignType tyId, .ForeignType tyId2 => decide (tyId = tyId2)
  | .Closure defId expr _, .Closure defId2 expr2 _ =>
      decide (expr = expr2) && decide (defId = defId2)
  | .Ref mutability _, .Ref mutability2 _ => decide (mutability = mutability2)
  | .RawPtr mutability _, .RawPtr mutability2 _ => decide (mutability = mutability2)
  | .Function numArgs sig _, .Function numArgs2 sig2 _ =>
      decide (numArgs = numArgs2) && decide (sig = sig2)
  | .Tuple cardinality _, .Tuple cardinality2 _ => decide (cardinality = cardinality2)
  | .Str, .Str => true
  | .Never, .Never => true
  | .Scalar scalar, .Scalar scalar2 => decide (scalar = scalar2)
  | _, _ => false

/-- `Ty::substs`: the top-level substs slot of the variants that carry one,
`None` for every other variant (including `Projection`, `Opaque` and `Dyn`,
whose nested lists are handled specially by `TypeWalk`). -/
def substs? : Ty → Option (List Ty)
  | .Adt _ substs => some substs
  | .Slice substs => some substs
  | .Array substs => some substs
  | .RawPtr _ substs => some substs
  | .Ref _ substs => some substs
  | .FnDef _ substs => some substs
  | .Function _ _ substs => some substs
  | .Tuple _ substs => some substs
  | .OpaqueType _ substs => some substs
  | .AssociatedType _ substs => some substs
  | .Closure _ _ substs => some substs
  | _ => none

/-- `Ty::apply_substs(new_substs)`: replaces the top-level substs slot after
asserting the lengths agree (`none` = assertion failure); every variant
without a substs slot is returned unchanged. -/
def applySubsts : Ty → List Ty → Option Ty
  | .Adt a substs, newSubsts =>
      if substs.length = newSubsts.length then some (.Adt a newSubsts) else none
  | .Slice substs, newSubsts =>
      if substs.length = newSubsts.length then some (.Slice newSubsts) else none
  | .Array substs, newSubsts =>
      if substs.length = newSubsts.length then some (.Array newSubsts) else none
  | .RawPtr m substs, newSubsts =>
      if substs.length = newSubsts.length then some (.RawPtr m newSubsts) else none
  | .Ref m substs, newSubsts =>
      if substs.length = newSubsts.length then some (.Ref m newSubsts) else none
  | .FnDef c substs, newSubsts =>
      if substs.length = newSubsts.length then some (.FnDef c newSubsts) else none
  | .Function n v substs, newSubsts =>
      if substs.length = newSubsts.length then some (.Function n v newSubsts) else none
  | .Tuple c substs, newSubsts =>
      if substs.length = newSubsts.length then some (.Tuple c newSubsts) else none
  | .OpaqueType o substs, newSubsts =>
      if substs.length = newSubsts.length then some (.OpaqueType o newSubsts) else none
  | .AssociatedType a substs, newSubsts =>
      if substs.length = newSubsts.length then some (.AssociatedType a newSubsts) else none
  | .Closure c e substs, newSubsts =>
      if substs.length = newSubsts.length then some (.Closure c e newSubsts) else none
  | t, _ => some t

/-- `Ty::callable_sig(db)`: a signature for `Function` (via
`CallableSig::from_fn_ptr`), `FnDef` (instantiating the database-held
polymorphic signature; the length assertion inside `Binders::subst` is
folded into the `Option`), and `Closure` (recursing into the first subst
element; the source indexing panics on an empty substs list, `none`
here). -/
def callableSig (db : HirDatabase) : Ty → Option CallableSig
  | .Function _ variadic substs => some (CallableSig.fromFnPtr variadic substs)
  | .FnDef defId parameters => (db.callableItemSignature defId).subst parameters
  | .Closure _ _ (sigParam :: _) => callableSig db sigParam
  | .Closure _ _ [] => none
  | _ => none

end Ty

mutual

/-- Auxiliary semantic notion (not from the source): `t.closedAt d` holds
when every `Ty::Bound` in `t` is bound by one of the `d` ambient binders or
by an intervening `Dyn` binder, i.e. `t` has no free bound variables
relative to depth `d`. -/
def Ty.closedAt : Ty → Nat → Bool
  | .Adt _ ss, d => closedAtList ss d
  | .AssociatedType _ ss, d => closedAtList ss d
  | .Scalar _, _ => true
  | .Tuple _ ss, d => closedAtList ss d
  | .Array ss, d => closedAtList ss d
  | .Slice ss, d => closedAtList ss d
  | .RawPtr _ ss, d => closedAtList ss d
  | .Ref _ ss, d => closedAtList ss d
  | .OpaqueType _ ss, d => closedAtList ss d
  | .FnDef _ ss, d => closedAtList ss d
  | .Str, _ => true
  | .Never, _ => true
  | .Closure _ _ ss, d => closedAtList ss d
  | .ForeignType _, _ => true
  | .Function _ _ ss, d => closedAtList ss d
  | .Projection _ ps, d => closedAtList ps d
  | .Opaque _ ps, d => closedAtList ps d
  | .Placeholder _, _ => true
  | .Bound b _, d => decide (b < d)
  | .InferenceVar _ _, _ => true
  | .Dyn ps, d => closedAtPreds ps (d + 1)
  | .Unknown, _ => true

def closedAtList : List Ty → Nat → Bool
  | [], _ => true
  | t :: ts, d => t.closedAt d && closedAtList ts d

def GenericPredicate.closedAt : GenericPredicate → Nat → Bool
  | .Implemented _ ss, d => closedAtList ss d
  | .Projection _ ps t, d => closedAtList ps d && t.closedAt d
  | .Error, _ => true

def closedAtPreds : List GenericPredicate → Nat → Bool
  | [], _ => true
  | p :: ps, d => p.closedAt d && closedAtPreds ps d

end

/-- Instrument for observing the tracked binder depth: rewrites every
`Ty::Bound` so that its de Bruijn index records the depth at which
`walk_mut_binders` presented the node to the closure, starting from
depth 0. -/
def markDepths (t : Ty) : Ty :=
  Ty.foldBinders
    (fun u d =>
      match u with
      | .Bound _ i => .Bound d i
      | u => u)
    t 0

section Bridges

variable (f : Ty → Nat → Ty)

/-- Bridge: the `TypeWalk` method on `Ty` is the raw fold. -/
@[simp] theorem typeWalk_foldBinders_ty (t : Ty) (d : Nat) :
    TypeWalk.foldBinders f t d = Ty.foldBinders f t d := rfl

/-- Bridge: the `TypeWalk` method on `Substs` is the raw list fold. -/
@[simp] theorem typeWalk_foldBinders_substs (ts : List Ty) (d : Nat) :
    TypeWalk.foldBinders f ts d = foldBindersList f ts d := rfl

/-- The list fold is an elementwise map. -/
theorem foldBindersList_eq_map (ts : List Ty) (d : Nat) :
    foldBindersList f ts d = ts.map (fun t => t.foldBinders f d) := by
  induction ts with
  | nil => simp [foldBindersList]
  | cons t ts ih => simp [foldBindersList, ih]

/-- The predicate-list fold is an elementwise map. -/
theorem foldBindersPreds_eq_map (ps : List GenericPredicate) (d : Nat) :
    foldBindersPreds f ps d = ps.map (fun p => p.foldBinders f d) := by
  induction ps with
  | nil => simp [foldBindersPreds]
  | cons p ps ih => simp [foldBindersPreds, ih]

end Bridges

mutual

/-- Shifting by zero is the identity. -/
theorem Ty.foldBinders_shift_zero (t : Ty) (d : Nat) :
    Ty.foldBinders (shiftClosure 0) t d = t := by
  cases t <;>
    simp [Ty.foldBinders, shiftClosure, foldBindersList_shift_zero,
      foldBindersPreds_shift_zero]

theorem foldBindersList_shift_zero (ts : List Ty) (d : Nat) :
    foldBindersList (shiftClosure 0) ts d = ts := by
  cases ts <;>
    simp [foldBindersList, Ty.foldBinders_shift_zero, foldBindersList_shift_zero]

theorem predFoldBinders_shift_zero (p : GenericPredicate) (d : Nat) :
    p.foldBinders (shiftClosure 0) d = p := by
  cases p <;>
    simp [GenericPredicate.foldBinders, foldBindersList_shift_zero,
      Ty.foldBinders_shift_zero]

theorem foldBindersPreds_shift_zero (ps : List GenericPredicate) (d : Nat) :
    foldBindersPreds (shiftClosure 0) ps d = ps := by
  cases ps <;>
    simp [foldBindersPreds, predFoldBinders_shift_zero,
      foldBindersPreds_shift_zero]

end

mutual

/-- Composition of shifts: shifting by `k` from depth `m` and then by `n`
from depth `k + m` is shifting by `k + n` from depth `m`. -/
theorem Ty.foldBinders_shift_shift (k n : Nat) (t : Ty) (m : Nat) :
    Ty.foldBinders (shiftClosure n) (Ty.foldBinders (shiftClosure k) t m) (k + m) =
      Ty.foldBinders (shiftClosure (k + n)) t m := by
  cases t with
  | Bound b i =>
      simp only [Ty.foldBinders]
      by_cases hb : b ≥ m
      · have hb2 : b + k ≥ k + m := by omega
        simp [Ty.foldBinders, shiftClosure, hb, hb2, Nat.add_assoc]
      · have hb2 : ¬ b ≥ k + m := by omega
        simp [Ty.foldBinders, shiftClosure, hb, hb2]
  | Dyn ps =>
      have ih := foldBindersPreds_shift_shift k n ps (m + 1)
      simp only [Ty.foldBinders, shiftClosure]
      rw [Nat.add_assoc, ih]
  | _ =>
      simp [Ty.foldBinders, shiftClosure, foldBindersList_shift_shift]

theorem foldBindersList_shift_shift (k n : Nat) (ts : List Ty) (m : Nat) :
    foldBindersList (shiftClosure n) (foldBindersList (shiftClosure k) ts m) (k + m) =
      foldBindersList (shiftClosure (k + n)) ts m := by
  cases ts <;>
    simp [foldBindersList, Ty.foldBinders_shift_shift, foldBindersList_shift_shift]

theorem predFoldBinders_shift_shift (k n : Nat) (p : GenericPredicate) (m : Nat) :
    GenericPredicate.foldBinders (shiftClosure n)
        (GenericPredicate.foldBinders (shiftClosure k) p m) (k + m) =
      GenericPredicate.foldBinders (shiftClosure (k + n)) p m := by
  cases p <;>
    simp [GenericPredicate.foldBinders, foldBindersList_shift_shift,
      Ty.foldBinders_shift_shift]

theorem foldBindersPreds_shift_shift (k n : Nat) (ps : List GenericPredicate) (m : Nat) :
    foldBindersPreds (shiftClosure n) (foldBindersPreds (shiftClosure k) ps m) (k + m) =
      foldBindersPreds (shiftClosure (k + n)) ps m := by
  cases ps <;>
    simp [foldBindersPreds, predFoldBinders_shift_shift,
      foldBindersPreds_shift_shift]

end


mutual

/-- Closedness is monotone in the depth. -/
theorem Ty.closedAt_mono (t : Ty) (d d' : Nat) (hd : d ≤ d') (h : t.closedAt d) :
    t.closedAt d' := by
  cases t with
  | Bound b i =>
      simp only [Ty.closedAt, decide_eq_true_eq] at h ⊢
      omega
  | Dyn ps =>
      simp only [Ty.closedAt] at h ⊢
      exact closedAtPreds_mono ps (d + 1) (d' + 1) (by omega) h
  | _ =>
      simp only [Ty.closedAt] at h ⊢ <;>
        exact closedAtList_mono _ d d' hd h

theorem closedAtList_mono (ts : List Ty) (d d' : Nat) (hd : d ≤ d') (h : closedAtList ts d) :
    closedAtList ts d' := by
  cases ts with
  | nil => simp [closedAtList]
  | cons t ts =>
      simp only [closedAtList, Bool.and_eq_true] at h ⊢
      exact ⟨Ty.closedAt_mono t d d' hd h.1, closedAtList_mono ts d d' hd h.2⟩

theorem predClosedAt_mono (p : GenericPredicate) (d d' : Nat) (hd : d ≤ d')
    (h : p.closedAt d) : p.closedAt d' := by
  cases p with
  | Implemented tr ss =>
      simp only [GenericPredicate.closedAt] at h ⊢
      exact closedAtList_mono ss d d' hd h
  | Projection a ps t =>
      simp only [GenericPredicate.closedAt, Bool.and_eq_true] at h ⊢
      exact ⟨closedAtList_mono ps d d' hd h.1, Ty.closedAt_mono t d d' hd h.2⟩
  | Error => simp [GenericPredicate.closedAt]

theorem closedAtPreds_mono (ps : List GenericPredicate) (d d' : Nat) (hd : d ≤ d')
    (h : closedAtPreds ps d) : closedAtPreds ps d' := by
  cases ps with
  | nil => simp [closedAtPreds]
  | cons p ps =>
      simp only [closedAtPreds, Bool.and_eq_true] at h ⊢
      exact ⟨predClosedAt_mono p d d' hd h.1, closedAtPreds_mono ps d d' hd h.2⟩

end

mutual

/-- Shifting does not change a term that is closed at (or below) the
starting depth. -/
theorem Ty.foldBinders_shift_of_closed (k : Nat) (t : Ty) (m m' : Nat) (hd : m ≤ m')
    (h : t.closedAt m) : Ty.foldBinders (shiftClosure k) t m' = t := by
  cases t with
  | Bound b i =>
      simp only [Ty.closedAt, decide_eq_true_eq] at h
      have hb : ¬ b ≥ m' := by omega
      simp [Ty.foldBinders, shiftClosure, hb]
  | Dyn ps =>
      simp only [Ty.closedAt] at h
      simp [Ty.foldBinders, shiftClosure,
        foldBindersPreds_shift_of_closed k ps (m + 1) (m' + 1) (by omega) h]
  | _ =>
      simp only [Ty.closedAt] at h
      first
      | simp [Ty.foldBinders, shiftClosure, foldBindersList_shift_of_closed k _ m m' hd h]
      | simp [Ty.foldBinders, shiftClosure]

theorem foldBindersList_shift_of_closed (k : Nat) (ts : List Ty) (m m' : Nat) (hd : m ≤ m')
    (h : closedAtList ts m) : foldBindersList (shiftClosure k) ts m' = ts := by
  cases ts with
  | nil => simp [foldBindersList]
  | cons t ts =>
      simp only [closedAtList, Bool.and_eq_true] at h
      simp [foldBindersList, Ty.foldBinders_shift_of_closed k t m m' hd h.1,
        foldBindersList_shift_of_closed k ts m m' hd h.2]

theorem predFoldBinders_shift_of_closed (k : Nat) (p : GenericPredicate)
    (m m' : Nat) (hd : m ≤ m') (h : p.closedAt m) :
    GenericPredicate.foldBinders (shiftClosure k) p m' = p := by
  cases p with
  | Implemented tr ss =>
      simp only [GenericPredicate.closedAt] at h
      simp [GenericPredicate.foldBinders, foldBindersList_shift_of_closed k ss m m' hd h]
  | Projection a ps t =>
      simp only [GenericPredicate.closedAt, Bool.and_eq_true] at h
      simp [GenericPredicate.foldBinders, foldBindersList_shift_of_closed k ps m m' hd h.1,
        Ty.foldBinders_shift_of_closed k t m m' hd h.2]
  | Error => simp [GenericPredicate.foldBinders]

theorem foldBindersPreds_shift_of_closed (k : Nat) (ps : List GenericPredicate)
    (m m' : Nat) (hd : m ≤ m') (h : closedAtPreds ps m) :
    foldBindersPreds (shiftClosure k) ps m' = ps := by
  cases ps with
  | nil => simp [foldBindersPreds]
  | cons p ps =>
      simp only [closedAtPreds, Bool.and_eq_true] at h
      simp [foldBindersPreds, predFoldBinders_shift_of_closed k p m m' hd h.1,
        foldBindersPreds_shift_of_closed k ps m m' hd h.2]

end

/-- Every element picked from a list of closed types (with the closed
fallback `Ty.Unknown`) is closed. -/
theorem closedAt_getD (s : List Ty) (hs : ∀ u ∈ s, u.closedAt 0) (i : Nat) :
    (s.getD i Ty.Unknown).closedAt 0 := by
  by_cases hi : i < s.length
  · rw [List.getD_eq_getElem _ _ hi]
    exact hs _ (List.getElem_mem hi)
  · rw [List.getD_eq_default _ _ (by omega)]
    simp [Ty.closedAt]

mutual

/-- Substituting with closed replacement types yields a term that is closed
at the starting depth (all free variables get replaced by closed terms). -/
theorem Ty.foldBinders_subst_closedAt (s : List Ty) (hs : ∀ u ∈ s, u.closedAt 0)
    (t : Ty) (d : Nat) : (Ty.foldBinders (substClosure s) t d).closedAt d := by
  cases t with
  | Bound b i =>
      simp only [Ty.foldBinders]
      by_cases hb : b ≥ d
      · have hu : (s.getD i Ty.Unknown).closedAt 0 := closedAt_getD s hs i
        have hshift : TypeWalk.shiftBoundVars d (s.getD i Ty.Unknown) = s.getD i Ty.Unknown := by
          simpa [TypeWalk.shiftBoundVars] using
            Ty.foldBinders_shift_of_closed d (s.getD i Ty.Unknown) 0 0 (Nat.le_refl 0) hu
        simp only [substClosure, hb, if_pos, hshift]
        exact Ty.closedAt_mono _ 0 d (Nat.zero_le d) hu
      · simp only [substClosure, hb, if_false, Ty.closedAt, decide_eq_true_eq]
        simp only [ge_iff_le, not_le] at hb
        simp [hb]
  | Dyn ps =>
      simp [Ty.foldBinders, substClosure, Ty.closedAt,
        foldBindersPreds_subst_closedAt s hs ps (d + 1)]
  | _ =>
      simp [Ty.foldBinders, substClosure, Ty.closedAt,
        foldBindersList_subst_closedAt s hs _ d]

theorem foldBindersList_subst_closedAt (s : List Ty) (hs : ∀ u ∈ s, u.closedAt 0)
    (ts : List Ty) (d : Nat) : closedAtList (foldBindersList (substClosure s) ts d) d := by
  cases ts with
  | nil => simp [foldBindersList, closedAtList]
  | cons t ts =>
      simp [foldBindersList, closedAtList, Ty.foldBinders_subst_closedAt s hs t d,
        foldBindersList_subst_closedAt s hs ts d]

theorem predFoldBinders_subst_closedAt (s : List Ty)
    (hs : ∀ u ∈ s, u.closedAt 0) (p : GenericPredicate) (d : Nat) :
    (GenericPredicate.foldBinders (substClosure s) p d).closedAt d := by
  cases p with
  | Implemented tr ss =>
      simp [GenericPredicate.foldBinders, GenericPredicate.closedAt,
        foldBindersList_subst_closedAt s hs ss d]
  | Projection a ps t =>
      simp [GenericPredicate.foldBinders, GenericPredicate.closedAt,
        foldBindersList_subst_closedAt s hs ps d, Ty.foldBinders_subst_closedAt s hs t d]
  | Error => simp [GenericPredicate.foldBinders, GenericPredicate.closedAt]

theorem foldBindersPreds_subst_closedAt (s : List Ty) (hs : ∀ u ∈ s, u.closedAt 0)
    (ps : List GenericPredicate) (d : Nat) :
    closedAtPreds (foldBindersPreds (substClosure s) ps d) d := by
  cases ps with
  | nil => simp [foldBindersPreds, closedAtPreds]
  | cons p ps =>
      simp [foldBindersPreds, closedAtPreds,
        predFoldBinders_subst_closedAt s hs p d,
        foldBindersPreds_subst_closedAt s hs ps d]

end

mutual

/-- Commutation of shift and substitution: substituting at depth `d + n`
immediately after shifting by `n` from depth `d` equals substituting at
depth `d` and then shifting the result by `n` from depth `d`. -/
theorem Ty.foldBinders_subst_shift_comm (s : List Ty) (n : Nat) (t : Ty) (d : Nat) :
    Ty.foldBinders (substClosure s) (Ty.foldBinders (shiftClosure n) t d) (d + n) =
      Ty.foldBinders (shiftClosure n) (Ty.foldBinders (substClosure s) t d) d := by
  cases t with
  | Bound b i =>
      simp only [Ty.foldBinders]
      by_cases hb : b ≥ d
      · have hb2 : b + n ≥ d + n := by omega
        have hshift := Ty.foldBinders_shift_shift d n (s.getD i Ty.Unknown) 0
        simp only [Nat.add_zero, List.getD_eq_getElem?_getD] at hshift
        simp [Ty.foldBinders, shiftClosure, substClosure, hb, hb2,
          TypeWalk.shiftBoundVars, typeWalk_foldBinders_ty, hshift]
      · have hb2 : ¬ b ≥ d + n := by omega
        simp [Ty.foldBinders, shiftClosure, substClosure, hb, hb2]
  | Dyn ps =>
      have ih := foldBindersPreds_subst_shift_comm s n ps (d + 1)
      simp only [Ty.foldBinders, shiftClosure, substClosure]
      rw [show d + n + 1 = d + 1 + n from by omega, ih]
  | _ =>
      simp [Ty.foldBinders, shiftClosure, substClosure, foldBindersList_subst_shift_comm]

theorem foldBindersList_subst_shift_comm (s : List Ty) (n : Nat) (ts : List Ty) (d : Nat) :
    foldBindersList (substClosure s) (foldBindersList (shiftClosure n) ts d) (d + n) =
      foldBindersList (shiftClosure n) (foldBindersList (substClosure s) ts d) d := by
  cases ts <;>
    simp [foldBindersList, Ty.foldBinders_subst_shift_comm, foldBindersList_subst_shift_comm]

theorem predFoldBinders_subst_shift_comm (s : List Ty) (n : Nat)
    (p : GenericPredicate) (d : Nat) :
    GenericPredicate.foldBinders (substClosure s)
        (GenericPredicate.foldBinders (shiftClosure n) p d) (d + n) =
      GenericPredicate.foldBinders (shiftClosure n)
        (GenericPredicate.foldBinders (substClosure s) p d) d := by
  cases p <;>
    simp [GenericPredicate.foldBinders, Ty.foldBinders_subst_shift_comm,
      foldBindersList_subst_shift_comm]

theorem foldBindersPreds_subst_shift_comm (s : List Ty) (n : Nat)
    (ps : List GenericPredicate) (d : Nat) :
    foldBindersPreds (substClosure s) (foldBindersPreds (shiftClosure n) ps d) (d + n) =
      foldBindersPreds (shiftClosure n) (foldBindersPreds (substClosure s) ps d) d := by
  cases ps <;>
    simp [foldBindersPreds, predFoldBinders_subst_shift_comm,
      foldBindersPreds_subst_shift_comm]

end

/-- C1 counterexample: `walk_mut_binders` does not increment the tracked
depth when recursing into the contents of an `Opaque` or an `OpaqueType`
node. The depth instrument records depth 0 (not 1) for a bound variable
directly inside the parameters of an `Opaque` and of an `OpaqueType`,
while a bound variable inside a `Dyn` is recorded at depth 1. -/
theorem walk_mut_binders_opaque_depth_cex :
    markDepths (Ty.Opaque (OpaqueTyId.ReturnTypeImplTrait 0 0) [Ty.Bound 7 0])
        = Ty.Opaque (OpaqueTyId.ReturnTypeImplTrait 0 0) [Ty.Bound 0 0]
  ∧ markDepths (Ty.OpaqueType (OpaqueTyId.ReturnTypeImplTrait 0 0) [Ty.Bound 7 0])
        = Ty.OpaqueType (OpaqueTyId.ReturnTypeImplTrait 0 0) [Ty.Bound 0 0]
  ∧ markDepths (Ty.Dyn [GenericPredicate.Implemented 3 [Ty.Bound 7 0]])
        = Ty.Dyn [GenericPredicate.Implemented 3 [Ty.Bound 1 0]]
  ∧ Ty.Opaque (OpaqueTyId.ReturnTypeImplTrait 0 0) [Ty.Bound 0 0]
        ≠ Ty.Opaque (OpaqueTyId.ReturnTypeImplTrait 0 0) [Ty.Bound 1 0] :=
  ⟨rfl, rfl, rfl, by simp⟩

/-- C1 (amended): `walk_mut_binders` increments the tracked de Bruijn depth
by one only before recursing into the contents of a `Dyn` node; it recurses
at unchanged depth into the parameters of `Opaque` and the substs of
`OpaqueType`, and into the substs (or projection parameters) of every other
substs-carrying variant. -/
theorem walk_mut_binders_depth_tracking (f : Ty → Nat → Ty) (d : Nat) :
    (∀ ps, Ty.foldBinders f (Ty.Dyn ps) d = f (Ty.Dyn (foldBindersPreds f ps (d + 1))) d)
  ∧ (∀ o ps, Ty.foldBinders f (Ty.Opaque o ps) d = f (Ty.Opaque o (foldBindersList f ps d)) d)
  ∧ (∀ o ss, Ty.foldBinders f (Ty.OpaqueType o ss) d
        = f (Ty.OpaqueType o (foldBindersList f ss d)) d)
  ∧ (∀ a ss, Ty.foldBinders f (Ty.Adt a ss) d = f (Ty.Adt a (foldBindersList f ss d)) d)
  ∧ (∀ a ss, Ty.foldBinders f (Ty.AssociatedType a ss) d
        = f (Ty.AssociatedType a (foldBindersList f ss d)) d)
  ∧ (∀ c ss, Ty.foldBinders f (Ty.Tuple c ss) d = f (Ty.Tuple c (foldBindersList f ss d)) d)
  ∧ (∀ ss, Ty.foldBinders f (Ty.Array ss) d = f (Ty.Array (foldBindersList f ss d)) d)
  ∧ (∀ ss, Ty.foldBinders f (Ty.Slice ss) d = f (Ty.Slice (foldBindersList f ss d)) d)
  ∧ (∀ m ss, Ty.foldBinders f (Ty.RawPtr m ss) d = f (Ty.RawPtr m (foldBindersList f ss d)) d)
  ∧ (∀ m ss, Ty.foldBinders f (Ty.Ref m ss) d = f (Ty.Ref m (foldBindersList f ss d)) d)
  ∧ (∀ c ss, Ty.foldBinders f (Ty.FnDef c ss) d = f (Ty.FnDef c (foldBindersList f ss d)) d)
  ∧ (∀ c e ss, Ty.foldBinders f (Ty.Closure c e ss) d
        = f (Ty.Closure c e (foldBindersList f ss d)) d)
  ∧ (∀ n v ss, Ty.foldBinders f (Ty.Function n v ss) d
        = f (Ty.Function n v (foldBindersList f ss d)) d)
  ∧ (∀ a ps, Ty.foldBinders f (Ty.Projection a ps) d
        = f (Ty.Projection a (foldBindersList f ps d)) d) :=
  ⟨fun _ => rfl, fun _ _ => rfl, fun _ _ => rfl, fun _ _ => rfl, fun _ _ => rfl,
    fun _ _ => rfl, fun _ => rfl, fun _ => rfl, fun _ _ => rfl, fun _ _ => rfl,
    fun _ _ => rfl, fun _ _ _ => rfl, fun _ _ _ => rfl, fun _ _ => rfl⟩

/-- C2: `subst_bound_vars_at_depth` replaces a `Bound(debruijn, index)` met
at tracked depth `d` by the `index`-th substitution element shifted up by
`d` exactly when `debruijn >= d`, leaves it untouched when `debruijn < d`,
and grows the tracked depth by one when entering the binder of a `Dyn`;
in particular a `Bound(0, k)` inside a `Dyn` survives `subst` of an
enclosing `Binders` unchanged while a `Bound(1, k)` inside the same `Dyn`
is replaced by the `k`-th substitution element (shifted by the one `Dyn`
binder it is inserted under). -/
theorem subst_bound_vars_at_depth_spec (s : List Ty) :
    (∀ (d b i : Nat) (hi : i < s.length),
      TypeWalk.substBoundVarsAtDepth s (Ty.Bound b i) d
        = if b ≥ d then TypeWalk.shiftBoundVars d (s.get ⟨i, hi⟩) else Ty.Bound b i)
  ∧ (∀ (d b i : Nat), b < d →
      TypeWalk.substBoundVarsAtDepth s (Ty.Bound b i) d = Ty.Bound b i)
  ∧ (∀ (ps : List GenericPredicate) (d : Nat),
      TypeWalk.substBoundVarsAtDepth s (Ty.Dyn ps) d
        = Ty.Dyn (foldBindersPreds (substClosure s) ps (d + 1)))
  ∧ (∀ (numBinders traitId k : Nat) (hk : k < s.length), s.length = numBinders →
      Binders.subst
          ⟨numBinders,
            Ty.Dyn [GenericPredicate.Implemented traitId [Ty.Bound 0 k, Ty.Bound 1 k]]⟩ s
        = some (Ty.Dyn [GenericPredicate.Implemented traitId
            [Ty.Bound 0 k, TypeWalk.shiftBoundVars 1 (s.get ⟨k, hk⟩)]])) := by
  refine ⟨?_, ?_, ?_, ?_⟩
  · intro d b i hi
    by_cases hb : b ≥ d
    · simp [TypeWalk.substBoundVarsAtDepth, Ty.foldBinders, substClosure, hb,
        TypeWalk.shiftBoundVars, List.getD_eq_getElem _ _ hi,
        List.getElem?_eq_getElem hi]
    · simp [TypeWalk.substBoundVarsAtDepth, Ty.foldBinders, substClosure, hb]
  · intro d b i hb
    have hb2 : ¬ b ≥ d := by omega
    simp [TypeWalk.substBoundVarsAtDepth, Ty.foldBinders, substClosure, hb2]
  · intro ps d
    simp [TypeWalk.substBoundVarsAtDepth, Ty.foldBinders, substClosure]
  · intro numBinders traitId k hk hlen
    simp [Binders.subst, hlen, TypeWalk.substBoundVars, TypeWalk.substBoundVarsAtDepth,
      Ty.foldBinders, foldBindersPreds, foldBindersList, GenericPredicate.foldBinders,
      substClosure, TypeWalk.shiftBoundVars, List.getD_eq_getElem _ _ hk,
      List.getElem?_eq_getElem hk]

/-- C2 witness: the characterization applied at concrete inputs — a
captured variable survives, and the concrete two-variable `Dyn` scenario
under an enclosing one-binder `Binders` with substitution `[Str]`. -/
theorem subst_bound_vars_at_depth_spec_witness :
    TypeWalk.substBoundVarsAtDepth [Ty.Str] (Ty.Bound 0 0) 1 = Ty.Bound 0 0
  ∧ Binders.subst
        ⟨1, Ty.Dyn [GenericPredicate.Implemented 9 [Ty.Bound 0 0, Ty.Bound 1 0]]⟩ [Ty.Str]
      = some (Ty.Dyn [GenericPredicate.Implemented 9
          [Ty.Bound 0 0, TypeWalk.shiftBoundVars 1 Ty.Str]]) :=
  ⟨(subst_bound_vars_at_depth_spec [Ty.Str]).2.1 1 0 0 (by decide), by
    simpa using
      (subst_bound_vars_at_depth_spec [Ty.Str]).2.2.2 1 9 0 (by decide) rfl⟩

/-- C3: shifting by `n` and then substituting at start depth `n` sends each
originally-free bound variable to the same substitution target as direct
substitution at depth 0 — the composite equals the depth-0 substitution
transported by the shift, and when every substitution element is closed the
composite equals the depth-0 substitution on the nose. -/
theorem shift_then_subst_at_depth (t : Ty) (s : List Ty) (n : Nat) :
    TypeWalk.substBoundVarsAtDepth s (TypeWalk.shiftBoundVars n t) n
      = TypeWalk.shiftBoundVars n (TypeWalk.substBoundVars s t)
  ∧ ((∀ u ∈ s, u.closedAt 0) →
      TypeWalk.substBoundVarsAtDepth s (TypeWalk.shiftBoundVars n t) n
        = TypeWalk.substBoundVars s t) := by
  have hcomm := Ty.foldBinders_subst_shift_comm s n t 0
  simp only [Nat.zero_add] at hcomm
  constructor
  · simpa [TypeWalk.substBoundVarsAtDepth, TypeWalk.shiftBoundVars,
      TypeWalk.substBoundVars] using hcomm
  · intro hs
    have hclosed := Ty.foldBinders_subst_closedAt s hs t 0
    have hfix := Ty.foldBinders_shift_of_closed n
      (Ty.foldBinders (substClosure s) t 0) 0 0 (Nat.le_refl 0) hclosed
    simp only [TypeWalk.substBoundVarsAtDepth, TypeWalk.shiftBoundVars,
      TypeWalk.substBoundVars, typeWalk_foldBinders_ty]
    rw [hcomm, hfix]

/-- C3 witness: the composition law applied to a concrete type (a `Dyn`
with one free and one captured variable), a closed substitution `[Str]`,
and shift amount 2. -/
theorem shift_then_subst_at_depth_witness :
    TypeWalk.substBoundVarsAtDepth [Ty.Str]
        (TypeWalk.shiftBoundVars 2
          (Ty.Dyn [GenericPredicate.Implemented 4 [Ty.Bound 0 0, Ty.Bound 1 0]])) 2
      = TypeWalk.substBoundVars [Ty.Str]
          (Ty.Dyn [GenericPredicate.Implemented 4 [Ty.Bound 0 0, Ty.Bound 1 0]]) :=
  (shift_then_subst_at_depth
      (Ty.Dyn [GenericPredicate.Implemented 4 [Ty.Bound 0 0, Ty.Bound 1 0]])
      [Ty.Str] 2).2 (by decide)

/-- C4 counterexample: `equals_ctor` is not reflexive — on the variants
without a constructor-comparison arm (`Projection`, `Opaque`,
`Placeholder`, `Bound`, `InferenceVar`, `Dyn`, `Unknown`) it returns
`false` even on two structurally equal values, so `x == y` does not imply
`x.equals_ctor(&y)` either. -/
theorem equals_ctor_not_reflexive_cex :
    Ty.Unknown.equalsCtor Ty.Unknown = false
  ∧ (Ty.Bound 0 0).equalsCtor (Ty.Bound 0 0) = false
  ∧ (Ty.Dyn []).equalsCtor (Ty.Dyn []) = false :=
  ⟨rfl, rfl, rfl⟩

/-- C4 (amended): `equals_ctor` is reflexive on, exactly, the variants with
a constructor-comparison arm (`Adt`, `AssociatedType`, `Scalar`, `Tuple`,
`Array`, `Slice`, `RawPtr`, `Ref`, `OpaqueType`, `FnDef`, `Str`, `Never`,
`Closure`, `ForeignType`, `Function`) and `false` on the remaining variants
even for equal arguments; it is symmetric on all values; on the comparable
variants equality implies `equals_ctor`; and the over-approximation is
strict (two tuples of the same arity with different substs are
`equals_ctor` but not equal). -/
theorem equals_ctor_props :
    (∀ a ss, (Ty.Adt a ss).equalsCtor (Ty.Adt a ss) = true)
  ∧ (∀ a ss, (Ty.AssociatedType a ss).equalsCtor (Ty.AssociatedType a ss) = true)
  ∧ (∀ sc, (Ty.Scalar sc).equalsCtor (Ty.Scalar sc) = true)
  ∧ (∀ c ss, (Ty.Tuple c ss).equalsCtor (Ty.Tuple c ss) = true)
  ∧ (∀ ss ss2, (Ty.Array ss).equalsCtor (Ty.Array ss2) = true)
  ∧ (∀ ss ss2, (Ty.Slice ss).equalsCtor (Ty.Slice ss2) = true)
  ∧ (∀ m ss, (Ty.RawPtr m ss).equalsCtor (Ty.RawPtr m ss) = true)
  ∧ (∀ m ss, (Ty.Ref m ss).equalsCtor (Ty.Ref m ss) = true)
  ∧ (∀ o ss, (Ty.OpaqueType o ss).equalsCtor (Ty.OpaqueType o ss) = true)
  ∧ (∀ c ss, (Ty.FnDef c ss).equalsCtor (Ty.FnDef c ss) = true)
  ∧ (Ty.Str.equalsCtor Ty.Str = true ∧ Ty.Never.equalsCtor Ty.Never = true)
  ∧ (∀ c e ss, (Ty.Closure c e ss).equalsCtor (Ty.Closure c e ss) = true)
  ∧ (∀ a, (Ty.ForeignType a).equalsCtor (Ty.ForeignType a) = true)
  ∧ (∀ n v ss, (Ty.Function n v ss).equalsCtor (Ty.Function n v ss) = true)
  ∧ (∀ a ps, (Ty.Projection a ps).equalsCtor (Ty.Projection a ps) = false)
  ∧ (∀ o ps, (Ty.Opaque o ps).equalsCtor (Ty.Opaque o ps) = false)
  ∧ (∀ p, (Ty.Placeholder p).equalsCtor (Ty.Placeholder p) = false)
  ∧ (∀ b i, (Ty.Bound b i).equalsCtor (Ty.Bound b i) = false)
  ∧ (∀ v k, (Ty.InferenceVar v k).equalsCtor (Ty.InferenceVar v k) = false)
  ∧ (∀ ps, (Ty.Dyn ps).equalsCtor (Ty.Dyn ps) = false)
  ∧ (Ty.Unknown.equalsCtor Ty.Unknown = false)
  ∧ (∀ x y : Ty, x.equalsCtor y = y.equalsCtor x)
  ∧ ((Ty.Tuple 2 [Ty.Str, Ty.Str]).equalsCtor (Ty.Tuple 2 [Ty.Never, Ty.Never]) = true
      ∧ Ty.Tuple 2 [Ty.Str, Ty.Str] ≠ Ty.Tuple 2 [Ty.Never, Ty.Never]) := by
  refine ⟨?_, ?_, ?_, ?_, ?_, ?_, ?_, ?_, ?_, ?_, ⟨rfl, rfl⟩, ?_, ?_, ?_,
    ?_, ?_, ?_, ?_, ?_, ?_, rfl, ?_, ?_, by simp⟩
  all_goals try (intros; simp [Ty.equalsCtor]; done)
  intro x y
  cases x <;> cases y <;> simp [Ty.equalsCtor, eq_comm]

/-- Mapping each index of a list to its entry rebuilds the list. -/
theorem range_map_getD {α : Type} (s : List α) (d : α) :
    (List.range s.length).map (fun i => s.getD i d) = s := by
  apply List.ext_getElem
  · simp
  · intro i h1 h2
    simp [List.getD_eq_getElem s d h2, List.getElem?_eq_getElem h2]

/-- C5: a `Binders` whose value is the identity substitution built by
`Substs::bound_vars` (one bound variable per parameter, at any depth) and
whose binder count is the parameter count, `subst`-ed with a substitution
of the same arity, returns exactly that substitution: the `i`-th bound
variable is replaced by the `i`-th substitution element. -/
theorem bound_vars_subst_roundtrip (paramCount depth : Nat) (s : List Ty)
    (h : s.length = paramCount) :
    Binders.subst ⟨paramCount, Substs.boundVars paramCount depth⟩ s = some s := by
  subst h
  have helem : ∀ idx : Nat,
      Ty.foldBinders (substClosure s) (Ty.Bound depth idx) 0 = s.getD idx Ty.Unknown := by
    intro idx
    have hz := Ty.foldBinders_shift_zero (s.getD idx Ty.Unknown) 0
    simp only [List.getD_eq_getElem?_getD] at hz
    simp [Ty.foldBinders, substClosure, TypeWalk.shiftBoundVars, hz]
  simp only [Binders.subst, if_pos rfl, TypeWalk.substBoundVars,
    TypeWalk.substBoundVarsAtDepth, typeWalk_foldBinders_substs, Substs.boundVars,
    foldBindersList_eq_map, List.map_map, Option.some.injEq]
  have : ∀ idx : Nat,
      ((fun t => Ty.foldBinders (substClosure s) t 0) ∘ fun idx => Ty.Bound depth idx) idx
        = (fun i => s.getD i Ty.Unknown) idx := by
    intro idx
    simp [helem idx]
  rw [List.map_congr_left (fun a _ => this a)]
  have hr := range_map_getD s Ty.Unknown
  simp only [List.getD_eq_getElem?_getD] at hr
  simp [hr]

/-- C5 witness: the round-trip law at parameter count 2, binder depth 7 and
a concrete two-element substitution. -/
theorem bound_vars_subst_roundtrip_witness :
    ([Ty.Str, Ty.Never] : List Ty).length = 2
  ∧ Binders.subst ⟨2, Substs.boundVars 2 7⟩ [Ty.Str, Ty.Never] = some [Ty.Str, Ty.Never] :=
  ⟨rfl, bound_vars_subst_roundtrip 2 7 [Ty.Str, Ty.Never] rfl⟩

/-- C6: `apply_substs` replaces the top-level substs slot (keeping the
constructor and all non-substs payload) when the new list has the same
length as the old one, fails the length assertion otherwise, and returns
every variant without a substs slot unchanged; in particular the two-field
`Adt` scenario succeeds with a two-element replacement and fails with a
one- or three-element one. -/
theorem apply_substs_spec (t : Ty) (newSubsts : List Ty) :
    (t.substs? = none → t.applySubsts newSubsts = some t)
  ∧ (∀ ss, t.substs? = some ss → newSubsts.length ≠ ss.length →
      t.applySubsts newSubsts = none)
  ∧ (∀ ss, t.substs? = some ss → newSubsts.length = ss.length →
      ∃ t2, t.applySubsts newSubsts = some t2 ∧ t2.substs? = some newSubsts
        ∧ t.equalsCtor t2 = t.equalsCtor t)
  ∧ ((Ty.Adt 0 [Ty.Scalar (Scalar.Uint 2), Ty.Scalar Scalar.Bool]).applySubsts
        [Ty.Str, Ty.Str] = some (Ty.Adt 0 [Ty.Str, Ty.Str]))
  ∧ ((Ty.Adt 0 [Ty.Scalar (Scalar.Uint 2), Ty.Scalar Scalar.Bool]).applySubsts
        [Ty.Str] = none)
  ∧ ((Ty.Adt 0 [Ty.Scalar (Scalar.Uint 2), Ty.Scalar Scalar.Bool]).applySubsts
        [Ty.Str, Ty.Str, Ty.Str] = none) := by
  refine ⟨?_, ?_, ?_, rfl, rfl, rfl⟩
  · intro h
    cases t <;> simp_all [Ty.substs?, Ty.applySubsts]
  · intro ss hss hlen
    cases t <;> simp_all [Ty.substs?, Ty.applySubsts] <;> omega
  · intro ss hss hlen
    cases t <;> simp_all [Ty.substs?, Ty.applySubsts, Ty.equalsCtor]

/-- C6 witness: the general clauses applied at concrete inputs — a leaf
(`Str`) is unchanged, a length mismatch on a `Ref` fails, and a matching
replacement on a `Tuple` succeeds preserving its payload. -/
theorem apply_substs_spec_witness :
    Ty.Str.applySubsts [Ty.Never] = some Ty.Str
  ∧ (Ty.Ref Mutability.Mut [Ty.Str]).applySubsts [] = none
  ∧ ∃ t2, (Ty.Tuple 1 [Ty.Str]).applySubsts [Ty.Never] = some t2
      ∧ t2.substs? = some [Ty.Never]
      ∧ (Ty.Tuple 1 [Ty.Str]).equalsCtor t2 = (Ty.Tuple 1 [Ty.Str]).equalsCtor (Ty.Tuple 1 [Ty.Str]) :=
  ⟨(apply_substs_spec Ty.Str [Ty.Never]).1 rfl,
    (apply_substs_spec (Ty.Ref Mutability.Mut [Ty.Str]) []).2.1 [Ty.Str] rfl (by decide),
    (apply_substs_spec (Ty.Tuple 1 [Ty.Str]) [Ty.Never]).2.2.1 [Ty.Str] rfl rfl⟩

/-- Folding `push` over a list appends it to the accumulated vector. -/
theorem foldl_push_eq (ts : List Ty) (b : SubstsBuilder) :
    List.foldl SubstsBuilder.push b ts = ⟨b.vec ++ ts, b.paramCount⟩ := by
  induction ts generalizing b with
  | nil => simp
  | cons t ts ih =>
      rw [List.foldl_cons, ih]
      simp [SubstsBuilder.push]

/-- C7: pushing exactly `param_count` elements into a fresh builder and
building succeeds with a `Substs` of that length; building with fewer
accumulated elements fails the length assertion; and `fill_with_unknown`
fills every remaining slot with `Ty::Unknown`, leaving no remaining
slots. -/
theorem substs_builder_spec :
    (∀ (paramCount : Nat) (ts : List Ty), ts.length = paramCount →
      SubstsBuilder.build (List.foldl SubstsBuilder.push (Substs.builder paramCount) ts)
        = some ts)
  ∧ (∀ (paramCount : Nat) (ts : List Ty), ts.length < paramCount →
      SubstsBuilder.build (List.foldl SubstsBuilder.push (Substs.builder paramCount) ts)
        = none)
  ∧ (∀ b : SubstsBuilder, b.vec.length ≤ b.paramCount →
      b.fillWithUnknown.vec = b.vec ++ List.replicate b.remaining Ty.Unknown
      ∧ b.fillWithUnknown.remaining = 0
      ∧ b.fillWithUnknown.vec.length = b.paramCount) := by
  refine ⟨?_, ?_, ?_⟩
  · intro paramCount ts h
    subst h
    simp [foldl_push_eq, Substs.builder, SubstsBuilder.build]
  · intro paramCount ts h
    simp [foldl_push_eq, Substs.builder, SubstsBuilder.build]
    omega
  · intro b h
    refine ⟨?_, ?_, ?_⟩
    · simp [SubstsBuilder.fillWithUnknown, SubstsBuilder.fill, List.map_const']
    · simp [SubstsBuilder.fillWithUnknown, SubstsBuilder.fill, SubstsBuilder.remaining]
      omega
    · simp [SubstsBuilder.fillWithUnknown, SubstsBuilder.fill, SubstsBuilder.remaining]
      omega

/-- C7 witness: a two-slot builder built after two pushes, an assertion
failure after one push, and `fill_with_unknown` topping up a three-slot
builder holding one element. -/
theorem substs_builder_spec_witness :
    SubstsBuilder.build (List.foldl SubstsBuilder.push (Substs.builder 2) [Ty.Str, Ty.Never])
      = some [Ty.Str, Ty.Never]
  ∧ SubstsBuilder.build (List.foldl SubstsBuilder.push (Substs.builder 2) [Ty.Str]) = none
  ∧ (⟨[Ty.Str], 3⟩ : SubstsBuilder).fillWithUnknown.vec
      = [Ty.Str] ++ List.replicate ((⟨[Ty.Str], 3⟩ : SubstsBuilder).remaining) Ty.Unknown
  ∧ (⟨[Ty.Str], 3⟩ : SubstsBuilder).fillWithUnknown.remaining = 0 :=
  ⟨substs_builder_spec.1 2 [Ty.Str, Ty.Never] rfl,
    substs_builder_spec.2.1 2 [Ty.Str] (by decide),
    (substs_builder_spec.2.2 ⟨[Ty.Str], 3⟩ (by decide)).1,
    (substs_builder_spec.2.2 ⟨[Ty.Str], 3⟩ (by decide)).2.1⟩

/-- C8: `prefix(n)` returns the first `min(n, len)` elements and
`suffix(n)` the last `min(n, len)` elements, for every `n`, with no
out-of-range failure (the count silently clamps). -/
theorem prefix_suffix_clamp (s : List Ty) (n : Nat) :
    Substs.prefixN s n = s.take (min n s.length)
  ∧ (Substs.prefixN s n).length = min n s.length
  ∧ Substs.suffix s n = s.drop (s.length - min n s.length)
  ∧ (Substs.suffix s n).length = min n s.length := by
  refine ⟨?_, ?_, ?_, ?_⟩
  · simp [Substs.prefixN, Nat.min_comm]
  · simp [Substs.prefixN]
    omega
  · simp [Substs.suffix, Nat.min_comm]
  · simp [Substs.suffix]
    omega

/-- C9: `from_params_and_return` stores the return type as the last element
after the parameters (so `params`/`ret` recover them), `fn_ptr` of a
signature is a `Function` whose argument count is the parameter count, and
`callable_sig` recovers exactly the signature the pointer was built from;
in particular the `[i32, bool] -> str` non-variadic scenario round-trips
with `num_args = 2`. -/
theorem fn_ptr_callable_sig_roundtrip (params : List Ty) (retTy : Ty) (isVarargs : Bool)
    (db : HirDatabase) :
    (CallableSig.fromParamsAndReturn params retTy isVarargs).paramsAndReturn
        = params ++ [retTy]
  ∧ (CallableSig.fromParamsAndReturn params retTy isVarargs).isVarargs = isVarargs
  ∧ (CallableSig.fromParamsAndReturn params retTy isVarargs).ret = some retTy
  ∧ (CallableSig.fromParamsAndReturn params retTy isVarargs).params = params
  ∧ (∀ sig : CallableSig, Ty.callableSig db (Ty.fnPtr sig) = some sig)
  ∧ Ty.fnPtr (CallableSig.fromParamsAndReturn [Ty.Scalar (Scalar.Int 3), Ty.Scalar Scalar.Bool]
        Ty.Str false)
      = Ty.Function 2 false [Ty.Scalar (Scalar.Int 3), Ty.Scalar Scalar.Bool, Ty.Str]
  ∧ Ty.callableSig db (Ty.fnPtr (CallableSig.fromParamsAndReturn
        [Ty.Scalar (Scalar.Int 3), Ty.Scalar Scalar.Bool] Ty.Str false))
      = some (CallableSig.fromParamsAndReturn
          [Ty.Scalar (Scalar.Int 3), Ty.Scalar Scalar.Bool] Ty.Str false)
  ∧ (CallableSig.fromParamsAndReturn [Ty.Scalar (Scalar.Int 3), Ty.Scalar Scalar.Bool]
        Ty.Str false).params = [Ty.Scalar (Scalar.Int 3), Ty.Scalar Scalar.Bool]
  ∧ (CallableSig.fromParamsAndReturn [Ty.Scalar (Scalar.Int 3), Ty.Scalar Scalar.Bool]
        Ty.Str false).ret = some Ty.Str := by
  refine ⟨rfl, rfl, ?_, ?_, ?_, rfl, rfl, rfl, rfl⟩
  · simp [CallableSig.ret, CallableSig.fromParamsAndReturn]
  · simp [CallableSig.params, CallableSig.fromParamsAndReturn, List.take_left]
  · intro sig
    cases sig
    rfl

/-- C10 counterexample: on a `RawPtr` whose substs list is not a singleton,
`as_reference` returns `None` without panicking (it only matches `Ref`),
and `strip_references` returns the value unchanged — contradicting the
claim that all four accessors panic on such a value. -/
theorem raw_ptr_accessors_no_panic_cex :
    Ty.asReference (Ty.RawPtr Mutability.Shared []) = some none
  ∧ Ty.stripReferences (Ty.RawPtr Mutability.Shared [])
      = some (Ty.RawPtr Mutability.Shared [])
  ∧ (some (none : Option (Ty × Mutability))
      ≠ (none : Option (Option (Ty × Mutability)))) :=
  ⟨rfl, rfl, by simp⟩

/-- C10 (amended): on a `Ref` whose substs list is not a singleton,
`as_reference`, `as_reference_or_ptr`, `builtin_deref` and
`strip_references` all panic via `Substs::as_single`; on such a `RawPtr`,
`as_reference_or_ptr` and `builtin_deref` panic, while `as_reference`
returns `None` and `strip_references` returns the value unchanged; with a
singleton substs list each accessor succeeds — the accessors are total
only under the invariant that every `Ref`/`RawPtr` carries a
single-element substs. -/
theorem ref_accessors_panic_on_non_single (m : Mutability) (ss : List Ty)
    (h : ss.length ≠ 1) :
    Ty.asReference (Ty.Ref m ss) = none
  ∧ Ty.asReferenceOrPtr (Ty.Ref m ss) = none
  ∧ Ty.asReferenceOrPtr (Ty.RawPtr m ss) = none
  ∧ Ty.builtinDeref (Ty.Ref m ss) = none
  ∧ Ty.builtinDeref (Ty.RawPtr m ss) = none
  ∧ Ty.stripReferences (Ty.Ref m ss) = none
  ∧ Ty.asReference (Ty.RawPtr m ss) = some none
  ∧ Ty.stripReferences (Ty.RawPtr m ss) = some (Ty.RawPtr m ss)
  ∧ (∀ t : Ty, Ty.asReference (Ty.Ref m [t]) = some (some (t, m)))
  ∧ (∀ t : Ty, Ty.asReferenceOrPtr (Ty.RawPtr m [t])
      = some (some (t, Rawness.RawPtr, m)))
  ∧ (∀ t : Ty, Ty.builtinDeref (Ty.Ref m [t]) = some (some t)) := by
  match ss, h with
  | [], _ =>
      refine ⟨rfl, rfl, rfl, rfl, rfl, ?_, rfl, ?_, ?_, ?_, ?_⟩ <;>
        simp [Ty.stripReferences, Ty.asReference, Ty.asReferenceOrPtr, Ty.builtinDeref,
          Substs.asSingle]
  | [t], h => exact absurd rfl h
  | t1 :: t2 :: rest, _ =>
      refine ⟨rfl, rfl, rfl, rfl, rfl, ?_, rfl, ?_, ?_, ?_, ?_⟩ <;>
        simp [Ty.stripReferences, Ty.asReference, Ty.asReferenceOrPtr, Ty.builtinDeref,
          Substs.asSingle]

/-- C10 witness: the amended behavior at a `Ref`/`RawPtr` with an empty
substs list. -/
theorem ref_accessors_panic_witness :
    Ty.asReference (Ty.Ref Mutability.Mut []) = none
  ∧ Ty.asReferenceOrPtr (Ty.RawPtr Mutability.Mut []) = none
  ∧ Ty.stripReferences (Ty.Ref Mutability.Mut []) = none :=
  ⟨(ref_accessors_panic_on_non_single Mutability.Mut [] (by decide)).1,
    (ref_accessors_panic_on_non_single Mutability.Mut [] (by decide)).2.2.1,
    (ref_accessors_panic_on_non_single Mutability.Mut [] (by decide)).2.2.2.2.2.1⟩
